import Mathlib

/-
Verification of the lease-based leader-election core
(src/core/leader-elector.core.ts of nest-typeorm-leader-election).

The engine's data model and operations are shallowly embedded:
timestamps are integers in milliseconds, the backing table is a list of
rows, each method of LeaderElectorCore becomes a pure state-passing
function, and the nondeterminism of the store (transaction failure,
commit failure, jitter draws) is made explicit as parameters.
-/

set_option autoImplicit false

namespace LeaderElection

/-- A row of the leader_lease table (entity LeaderLease):
id, leader_id, expires_at, created_at. Times are ms since an epoch. -/
structure LeaseRow where
  id : Nat
  leaderId : String
  expiresAt : Int
  createdAt : Int
deriving DecidableEq

/-- The raw configuration object LeaderElectorConfig: every field optional. -/
structure RawConfig where
  leaseDuration : Option Int
  renewalInterval : Option Int
  baseCleanInterval : Option Int
  jitterRange : Option Int
  lockId : Option Nat
  instanceId : Option String
  schema : Option String

/-- The resolved per-instance constants, as computed by the
LeaderElectorCore constructor (lines 28-42 of the source). -/
structure CoreConfig where
  baseLeaseDuration : Int
  baseCleanInterval : Int
  baseRenewalInterval : Int
  jitterRange : Int
  lockId : Nat
  instanceId : String
  schema : String

/-- Constructor of LeaderElectorCore: applies the defaulting rules
`leaseDuration ?? 30_000`, `baseCleanInterval ?? baseLeaseDuration * 2`,
`renewalInterval ?? baseLeaseDuration / 3`, `jitterRange ?? 2_000`,
`lockId ?? 1`, `schema ?? "public"`, `instanceId ?? <random token>`.
The random token of the source is passed in as `freshToken`. -/
def resolveConfig (cfg : RawConfig) (freshToken : String) : CoreConfig :=
  let L := cfg.leaseDuration.getD 30000
  { baseLeaseDuration := L
    baseCleanInterval := cfg.baseCleanInterval.getD (L * 2)
    baseRenewalInterval := cfg.renewalInterval.getD (L / 3)
    jitterRange := cfg.jitterRange.getD 2000
    lockId := cfg.lockId.getD 1
    instanceId := cfg.instanceId.getD freshToken
    schema := cfg.schema.getD "public" }

/-- Mutable per-instance engine state: the local isLeader flag and the
pending single-shot renewal timer (its scheduled fire time, if armed). -/
structure EngineState where
  isLeader : Bool
  renewalTimer : Option Int
deriving DecidableEq

/-- amILeader(): returns the cached local flag. -/
def amILeader (s : EngineState) : Bool :=
  s.isLeader

/-- The WHERE criteria `{ id: LOCK_ID, leaderId: instanceId }` used by
release's scoped delete and by the upsert's conflict target. -/
def leaseMatch (lockId : Nat) (me : String) (r : LeaseRow) : Bool :=
  r.id == lockId && r.leaderId == me

/-- release() (source lines 172-185): if the local flag is set, clear it,
cancel the pending renewal timer, and delete the store rows matching
`{ id: LOCK_ID, leaderId: instanceId }`; otherwise do nothing. -/
def release (c : CoreConfig) (s : EngineState) (store : List LeaseRow) :
    EngineState × List LeaseRow :=
  if s.isLeader then
    (⟨false, none⟩, store.filter (fun r => !(leaseMatch c.lockId c.instanceId r)))
  else
    (s, store)

/-- shutdown() (source lines 187-189) only awaits release(); the cleanup
interval started by startCleanupJob keeps no handle in the source and is
therefore never cancelled, which the `cleanupActive` field records. -/
structure FullState where
  engine : EngineState
  cleanupActive : Bool
deriving DecidableEq

/-- shutdown(): delegates to release(). No other field is touched. -/
def shutdown (c : CoreConfig) (st : FullState) (store : List LeaseRow) :
    FullState × List LeaseRow :=
  (⟨(release c st.engine store).1, st.cleanupActive⟩, (release c st.engine store).2)

/-- cleanupExpiredLeases() (source lines 93-105): DELETE FROM leader_lease
WHERE expires_at < NOW() - INTERVAL 5 seconds. `now` is the store clock in
ms, so the grace period is 5000 ms. -/
def cleanupExpiredLeases (now : Int) (store : List LeaseRow) : List LeaseRow :=
  store.filter (fun r => !(decide (r.expiresAt < now - 5000)))

/-- Outcome of the TypeORM upsert with conflictPaths ["id", "leaderId"]
against PostgreSQL: either the resulting table, or a unique-key violation
23505 on the primary key leader_lease_pkey. -/
inductive UpsertOutcome where
  | ok (store : List LeaseRow)
  | pkConflict
deriving DecidableEq

/-- The conditional write of tryAcquireLease step 1 (source lines 120-131):
INSERT (LOCK_ID, instanceId, NOW() + leaseDuration)
ON CONFLICT (id, leader_id) DO UPDATE SET expires_at = NOW() + leaseDuration.
If a row with the same id but a different leader_id exists, the insert
violates the primary key (a constraint that is not the conflict target) and
the statement raises 23505 on leader_lease_pkey. -/
def upsertLease (lockId : Nat) (me : String) (now L : Int)
    (store : List LeaseRow) : UpsertOutcome :=
  if store.any (leaseMatch lockId me) then
    UpsertOutcome.ok (store.map (fun r =>
      if leaseMatch lockId me r then { r with expiresAt := now + L } else r))
  else if store.any (fun r => r.id == lockId) then
    UpsertOutcome.pkConflict
  else
    UpsertOutcome.ok (store ++ [⟨lockId, me, now + L, now⟩])

/-- The read-back of tryAcquireLease step 2 (source lines 134-138):
findOne the row with id = LOCK_ID and compare its leaderId with
this instance's id. -/
def readBackMine (lockId : Nat) (me : String) (store : List LeaseRow) : Bool :=
  match store.find? (fun r => r.id == lockId) with
  | some row => row.leaderId == me
  | none => false

/-- Which way a tryAcquireLease attempt ended: the read-back confirmed this
instance (handleLeadershipAcquired ran and the transaction committed), the
read-back showed another leader, the upsert was rejected with the 23505
primary-key violation, or some other transaction-level failure occurred. -/
inductive AttemptBranch where
  | confirmed
  | readBackOther
  | rejected
  | txFailure
deriving DecidableEq

/-- Result of one complete tryAcquireLease call. -/
structure AttemptResult where
  engine : EngineState
  store : List LeaseRow
  branch : AttemptBranch
deriving DecidableEq

/-- tryAcquireLeaseWithJitter (source lines 106-110): the delay of the
single-shot timer rearmed for the next attempt is
baseRenewalInterval + jitter, so an attempt at time t schedules the next
one at this absolute time. -/
def rearmTime (c : CoreConfig) (t jit : Int) : Int :=
  t + c.baseRenewalInterval + jit

/-- The catch/finally tail of tryAcquireLease: the transaction was rolled
back (the caller passes the store as the rollback left it), release() runs,
and the finally block rearms the single-shot renewal timer. -/
def attemptFinish (c : CoreConfig) (timerVal : Option Int) (s : EngineState)
    (store : List LeaseRow) (b : AttemptBranch) : AttemptResult :=
  ⟨⟨(release c s store).1.isLeader, timerVal⟩, (release c s store).2, b⟩

/-- tryAcquireLease (source lines 112-163) as one atomic step at store time
t. `jit` is the jitter drawn for the finally-block rearm, `dbOk` is false
when the upsert/read-back raises a transaction-level failure, `commitOk`
is false when commitTransaction itself fails (the transaction's writes are
then rolled back; a delete already issued by release() on the separate
repository connection stays, because it committed on its own). -/
def tryAcquireLease (c : CoreConfig) (t jit : Int) (dbOk commitOk : Bool)
    (s : EngineState) (store : List LeaseRow) : AttemptResult :=
  if dbOk = false then
    attemptFinish c (some (rearmTime c t jit)) s store AttemptBranch.txFailure
  else
    match upsertLease c.lockId c.instanceId t c.baseLeaseDuration store with
    | UpsertOutcome.pkConflict =>
      attemptFinish c (some (rearmTime c t jit)) s store AttemptBranch.rejected
    | UpsertOutcome.ok store1 =>
      if readBackMine c.lockId c.instanceId store1 then
        if commitOk then
          ⟨⟨true, some (rearmTime c t jit)⟩, store1, AttemptBranch.confirmed⟩
        else
          attemptFinish c (some (rearmTime c t jit)) ⟨true, s.renewalTimer⟩
            store AttemptBranch.txFailure
      else
        if s.isLeader then
          if commitOk then
            ⟨⟨(release c s store1).1.isLeader, some (rearmTime c t jit)⟩,
              (release c s store1).2, AttemptBranch.readBackOther⟩
          else
            attemptFinish c (some (rearmTime c t jit)) ⟨false, none⟩
              (store.filter (fun r => !(leaseMatch c.lockId c.instanceId r)))
              AttemptBranch.txFailure
        else
          if commitOk then
            ⟨⟨s.isLeader, some (rearmTime c t jit)⟩, store1,
              AttemptBranch.readBackOther⟩
          else
            attemptFinish c (some (rearmTime c t jit)) s store
              AttemptBranch.txFailure

/-- initialize() (source lines 56-61): createLockTableIfNotExists issues
DDL only; startCleanupJob runs cleanupExpiredLeases once and arms the
recurring cleanup interval (whose handle is dropped); then
tryAcquireLeaseWithJitter only arms the single-shot renewal timer. No
acquisition attempt executes during this startup step itself. -/
def initEngine (c : CoreConfig) (now jit : Int) (store : List LeaseRow) :
    FullState × List LeaseRow :=
  (⟨⟨false, some (rearmTime c now jit)⟩, true⟩, cleanupExpiredLeases now store)

/-- startCleanupJob (source lines 85-91): the recurring cleanup cadence is
baseCleanInterval plus one jitter draw. -/
def cleanupDelay (c : CoreConfig) (jit : Int) : Int :=
  c.baseCleanInterval + jit

/-- Does `pat` occur at the head of `s`? -/
def leadsWith : List Char → List Char → Bool
  | [], _ => true
  | _ :: _, [] => false
  | a :: as, b :: bs => a == b && leadsWith as bs

/-- Does `pat` occur anywhere inside `s`? -/
def occursIn (pat : List Char) : List Char → Bool
  | [] => leadsWith pat []
  | c :: rest => leadsWith pat (c :: rest) || occursIn pat rest

/-- The three DDL statements issued by createLockTableIfNotExists (source
lines 67-83), with the template-literal interpolations of this.schema
reproduced exactly: the CREATE TABLE and the expires_at index interpolate
the configured schema, while the unique index on (id, leader_id) is written
against the literal relation leader_schema.leader_lease. -/
def createLockTableStatements (schema : String) : List String :=
  [ "CREATE TABLE IF NOT EXISTS " ++ schema ++ ".leader_lease ( id INT PRIMARY KEY, leader_id TEXT NOT NULL, expires_at TIMESTAMPTZ NOT NULL, created_at TIMESTAMPTZ NOT NULL DEFAULT NOW(), CHECK (expires_at > created_at) )"
  , "CREATE UNIQUE INDEX IF NOT EXISTS leader_lease_id_leader_id_unique on leader_schema.leader_lease (id, leader_id)"
  , "CREATE INDEX IF NOT EXISTS leader_lease_expires ON " ++ schema ++ ".leader_lease (expires_at)" ]

/-
Two engine instances A and B driven against one shared store: a
discrete-event embedding of the concurrency model of the spec. Each
attempt and each cleanup run is one atomic transaction executed at the
moment its timer fires; events are consumed in nondecreasing time order,
which the guards below express by requiring an event's time to be no
later than every pending renewal timer. Transaction failures, commit
failures and jitter draws stay nondeterministic, and explicit release()
calls may happen at any point.
-/

/-- The shared world: the store plus the two engines' local states. -/
structure World where
  store : List LeaseRow
  a : EngineState
  b : EngineState

/-- One discrete event of the two-instance system. -/
inductive Step (cA cB : CoreConfig) : World → World → Prop where
  | attemptA (w : World) (t jit : Int) (dbOk commitOk : Bool)
      (ht : w.a.renewalTimer = some t)
      (hle : ∀ u : Int, w.b.renewalTimer = some u → t ≤ u)
      (hj1 : -cA.jitterRange ≤ 2 * jit) (hj2 : 2 * jit ≤ cA.jitterRange) :
      Step cA cB w
        ⟨(tryAcquireLease cA t jit dbOk commitOk w.a w.store).store,
         (tryAcquireLease cA t jit dbOk commitOk w.a w.store).engine, w.b⟩
  | attemptB (w : World) (t jit : Int) (dbOk commitOk : Bool)
      (ht : w.b.renewalTimer = some t)
      (hle : ∀ u : Int, w.a.renewalTimer = some u → t ≤ u)
      (hj1 : -cB.jitterRange ≤ 2 * jit) (hj2 : 2 * jit ≤ cB.jitterRange) :
      Step cA cB w
        ⟨(tryAcquireLease cB t jit dbOk commitOk w.b w.store).store,
         w.a, (tryAcquireLease cB t jit dbOk commitOk w.b w.store).engine⟩
  | cleanup (w : World) (t : Int)
      (hA : ∀ u : Int, w.a.renewalTimer = some u → t ≤ u)
      (hB : ∀ u : Int, w.b.renewalTimer = some u → t ≤ u) :
      Step cA cB w ⟨cleanupExpiredLeases t w.store, w.a, w.b⟩
  | releaseA (w : World) :
      Step cA cB w
        ⟨(release cA w.a w.store).2, (release cA w.a w.store).1, w.b⟩
  | releaseB (w : World) :
      Step cA cB w
        ⟨(release cB w.b w.store).2, w.a, (release cB w.b w.store).1⟩

/-- Worlds reachable from `init` by the two-instance system. -/
inductive Reachable (cA cB : CoreConfig) (init : World) : World → Prop where
  | refl : Reachable cA cB init init
  | tail {w w' : World} :
      Reachable cA cB init w → Step cA cB w w' → Reachable cA cB init w'

/-- Number of store rows carrying the lock identifier. -/
def lockCount (lockId : Nat) (store : List LeaseRow) : Nat :=
  store.countP (fun r => r.id == lockId)

/-- If an engine's local flag is set, the store still holds its row and the
row's expiry lies strictly beyond the engine's pending renewal timer. -/
def leaderOwns (c : CoreConfig) (s : EngineState) (store : List LeaseRow) : Prop :=
  s.isLeader = true →
    ∃ t : Int, ∃ r : LeaseRow, s.renewalTimer = some t ∧ r ∈ store ∧
      r.id = c.lockId ∧ r.leaderId = c.instanceId ∧ t < r.expiresAt

/-- The safety invariant of the two-instance system. -/
def Inv (cA cB : CoreConfig) (w : World) : Prop :=
  lockCount cA.lockId w.store ≤ 1 ∧
    leaderOwns cA w.a w.store ∧ leaderOwns cB w.b w.store

/-- A concrete resolved configuration (all defaults, instance id "b"). -/
def cfgEx : CoreConfig := ⟨30000, 60000, 10000, 2000, 1, "b", "public"⟩

/-- The same configuration for a second instance with id "a". -/
def cfgEx2 : CoreConfig := ⟨30000, 60000, 10000, 2000, 1, "a", "public"⟩

/-- A lease row owned by instance "a" that expired at time 0. -/
def staleRow : LeaseRow := ⟨1, "a", 0, -1⟩

/-- A raw configuration with every field left unset. -/
def rawEmpty : RawConfig := ⟨none, none, none, none, none, none, none⟩

end LeaderElection

namespace LeaderElection

/-! Helper lemmas about the embedded operations. -/

theorem leaseMatch_iff (lockId : Nat) (me : String) (r : LeaseRow) :
    leaseMatch lockId me r = true ↔ (r.id = lockId ∧ r.leaderId = me) := by
  simp [leaseMatch]

theorem release_isLeader (c : CoreConfig) (s : EngineState) (store : List LeaseRow) :
    (release c s store).1.isLeader = false := by
  unfold release
  split
  · rfl
  · next h => exact Bool.not_eq_true _ ▸ h

theorem release_not_leader (c : CoreConfig) (s : EngineState) (store : List LeaseRow)
    (h : s.isLeader = false) : release c s store = (s, store) := by
  unfold release
  simp [h]

theorem release_leader (c : CoreConfig) (s : EngineState) (store : List LeaseRow)
    (h : s.isLeader = true) :
    release c s store =
      (⟨false, none⟩, store.filter (fun r => !(leaseMatch c.lockId c.instanceId r))) := by
  unfold release
  simp [h]

theorem lockCount_filter_le (k : Nat) (q : LeaseRow → Bool) (store : List LeaseRow) :
    lockCount k (store.filter q) ≤ lockCount k store :=
  (List.filter_sublist _).countP_le _

theorem release_count (c : CoreConfig) (s : EngineState) (store : List LeaseRow) (k : Nat) :
    lockCount k (release c s store).2 ≤ lockCount k store := by
  unfold release
  split
  · exact lockCount_filter_le _ _ _
  · exact Nat.le_refl _

end LeaderElection

namespace LeaderElection

theorem upsertLease_ok_elim (lockId : Nat) (me : String) (now L : Int)
    (store store1 : List LeaseRow)
    (h : upsertLease lockId me now L store = UpsertOutcome.ok store1) :
    store.any (leaseMatch lockId me) = true ∨
      store.any (fun r => r.id == lockId) = false := by
  unfold upsertLease at h
  split at h
  · next hm => exact Or.inl hm
  · split at h
    · cases h
    · next hi => exact Or.inr (Bool.not_eq_true _ ▸ hi)

theorem upsertLease_ok_fresh (lockId : Nat) (me : String) (now L : Int)
    (store store1 : List LeaseRow) (r : LeaseRow)
    (h : upsertLease lockId me now L store = UpsertOutcome.ok store1)
    (hr : r ∈ store1) (hid : r.id = lockId) (hme : r.leaderId = me) :
    r.expiresAt = now + L := by
  unfold upsertLease at h
  split at h
  · injection h with h
    subst h
    obtain ⟨r0, hr0, hfr0⟩ := List.mem_map.mp hr
    by_cases hm : leaseMatch lockId me r0 = true
    · rw [if_pos hm] at hfr0
      rw [← hfr0]
    · rw [if_neg hm] at hfr0
      subst hfr0
      exact absurd ((leaseMatch_iff _ _ _).mpr ⟨hid, hme⟩) hm
  · split at h
    · cases h
    · injection h with h
      subst h
      rcases List.mem_append.mp hr with h1 | h2
      · next hi =>
        exfalso
        have : store.any (fun r => r.id == lockId) = true :=
          List.any_eq_true.mpr ⟨r, h1, by simp [hid]⟩
        exact hi this
      · simp only [List.mem_singleton] at h2
        subst h2
        rfl

theorem upsertLease_count (lockId : Nat) (me : String) (now L : Int)
    (store store1 : List LeaseRow)
    (hc : lockCount lockId store ≤ 1)
    (h : upsertLease lockId me now L store = UpsertOutcome.ok store1) :
    lockCount lockId store1 ≤ 1 := by
  unfold upsertLease at h
  split at h
  · injection h with h
    subst h
    unfold lockCount at *
    rw [List.countP_map]
    have heq : ∀ r ∈ store,
        ((fun r : LeaseRow => r.id == lockId) ∘
          (fun r => if leaseMatch lockId me r then { r with expiresAt := now + L } else r)) r = true
          ↔ (fun r : LeaseRow => r.id == lockId) r = true := by
      intro r _
      by_cases hm : leaseMatch lockId me r = true <;> simp [hm]
    rw [List.countP_congr heq]
    exact hc
  · split at h
    · cases h
    · injection h with h
      subst h
      next hi =>
      unfold lockCount
      rw [List.countP_append]
      have h0 : store.countP (fun r => r.id == lockId) = 0 := by
        rw [List.countP_eq_zero]
        intro r hr hpr
        have : store.any (fun r => r.id == lockId) = true :=
          List.any_eq_true.mpr ⟨r, hr, hpr⟩
        exact hi this
      simp [h0]

end LeaderElection

namespace LeaderElection

theorem tryAcquireLease_timer (c : CoreConfig) (t jit : Int) (dbOk commitOk : Bool)
    (s : EngineState) (store : List LeaseRow) :
    (tryAcquireLease c t jit dbOk commitOk s store).engine.renewalTimer
      = some (rearmTime c t jit) := by
  unfold tryAcquireLease attemptFinish
  repeat first | rfl | split

theorem tryAcquireLease_cases (c : CoreConfig) (t jit : Int) (dbOk commitOk : Bool)
    (s : EngineState) (store : List LeaseRow) :
    (∃ store1 : List LeaseRow,
        upsertLease c.lockId c.instanceId t c.baseLeaseDuration store
          = UpsertOutcome.ok store1
        ∧ readBackMine c.lockId c.instanceId store1 = true
        ∧ dbOk = true ∧ commitOk = true
        ∧ tryAcquireLease c t jit dbOk commitOk s store
            = ⟨⟨true, some (rearmTime c t jit)⟩, store1, AttemptBranch.confirmed⟩)
    ∨ ((tryAcquireLease c t jit dbOk commitOk s store).engine.isLeader = false
        ∧ (tryAcquireLease c t jit dbOk commitOk s store).branch
            ≠ AttemptBranch.confirmed) := by
  unfold tryAcquireLease attemptFinish
  by_cases hdb : dbOk = false
  · rw [if_pos hdb]
    exact Or.inr ⟨release_isLeader _ _ _, by simp⟩
  · rw [if_neg hdb]
    have hdb' : dbOk = true := by revert hdb; cases dbOk <;> simp
    cases hup : upsertLease c.lockId c.instanceId t c.baseLeaseDuration store with
    | pkConflict =>
      dsimp only
      exact Or.inr ⟨release_isLeader _ _ _, by simp⟩
    | ok store1 =>
      dsimp only
      by_cases hrb : readBackMine c.lockId c.instanceId store1 = true
      · rw [if_pos hrb]
        by_cases hco : commitOk = true
        · rw [if_pos hco]
          exact Or.inl ⟨store1, rfl, hrb, hdb', hco, rfl⟩
        · rw [if_neg hco]
          exact Or.inr ⟨release_isLeader _ _ _, by simp⟩
      · rw [if_neg hrb]
        by_cases hsl : s.isLeader = true
        · rw [if_pos hsl]
          by_cases hco : commitOk = true
          · rw [if_pos hco]
            exact Or.inr ⟨release_isLeader _ _ _, by simp⟩
          · rw [if_neg hco]
            exact Or.inr ⟨release_isLeader _ _ _, by simp⟩
        · rw [if_neg hsl]
          by_cases hco : commitOk = true
          · rw [if_pos hco]
            exact Or.inr ⟨Bool.not_eq_true _ ▸ hsl, by simp⟩
          · rw [if_neg hco]
            exact Or.inr ⟨release_isLeader _ _ _, by simp⟩

theorem tryAcquireLease_flag (c : CoreConfig) (t jit : Int) (dbOk commitOk : Bool)
    (s : EngineState) (store : List LeaseRow)
    (h : (tryAcquireLease c t jit dbOk commitOk s store).engine.isLeader = true) :
    (tryAcquireLease c t jit dbOk commitOk s store).branch = AttemptBranch.confirmed := by
  rcases tryAcquireLease_cases c t jit dbOk commitOk s store with
    ⟨store1, _, _, _, _, heq⟩ | ⟨hfl, _⟩
  · rw [heq]
  · rw [hfl] at h
    cases h

theorem tryAcquireLease_confirmed_elim (c : CoreConfig) (t jit : Int)
    (dbOk commitOk : Bool) (s : EngineState) (store : List LeaseRow)
    (h : (tryAcquireLease c t jit dbOk commitOk s store).engine.isLeader = true) :
    ∃ store1 : List LeaseRow,
      upsertLease c.lockId c.instanceId t c.baseLeaseDuration store
        = UpsertOutcome.ok store1
      ∧ (tryAcquireLease c t jit dbOk commitOk s store).store = store1
      ∧ readBackMine c.lockId c.instanceId store1 = true := by
  rcases tryAcquireLease_cases c t jit dbOk commitOk s store with
    ⟨store1, hup, hrb, _, _, heq⟩ | ⟨hfl, _⟩
  · exact ⟨store1, hup, by rw [heq], hrb⟩
  · rw [hfl] at h
    cases h

end LeaderElection

namespace LeaderElection

theorem tryAcquireLease_store_follower (c : CoreConfig) (t jit : Int)
    (dbOk commitOk : Bool) (s : EngineState) (store : List LeaseRow)
    (hs : s.isLeader = false)
    (h : dbOk = false ∨ upsertLease c.lockId c.instanceId t c.baseLeaseDuration store
          = UpsertOutcome.pkConflict) :
    (tryAcquireLease c t jit dbOk commitOk s store).store = store := by
  unfold tryAcquireLease attemptFinish
  by_cases hdb : dbOk = false
  · rw [if_pos hdb]
    dsimp only
    rw [release_not_leader _ _ _ hs]
  · rw [if_neg hdb]
    rcases h with h | h
    · exact absurd h hdb
    · rw [h]
      dsimp only
      rw [release_not_leader _ _ _ hs]

theorem tryAcquireLease_count (c : CoreConfig) (t jit : Int) (dbOk commitOk : Bool)
    (s : EngineState) (store : List LeaseRow)
    (hc : lockCount c.lockId store ≤ 1) :
    lockCount c.lockId (tryAcquireLease c t jit dbOk commitOk s store).store ≤ 1 := by
  unfold tryAcquireLease attemptFinish
  by_cases hdb : dbOk = false
  · rw [if_pos hdb]
    exact le_trans (release_count _ _ _ _) hc
  · rw [if_neg hdb]
    cases hup : upsertLease c.lockId c.instanceId t c.baseLeaseDuration store with
    | pkConflict =>
      exact le_trans (release_count _ _ _ _) hc
    | ok store1 =>
      dsimp only
      have hc1 : lockCount c.lockId store1 ≤ 1 :=
        upsertLease_count _ _ _ _ _ _ hc hup
      by_cases hrb : readBackMine c.lockId c.instanceId store1 = true
      · rw [if_pos hrb]
        by_cases hco : commitOk = true
        · rw [if_pos hco]
          exact hc1
        · rw [if_neg hco]
          exact le_trans (release_count _ _ _ _) hc
      · rw [if_neg hrb]
        by_cases hsl : s.isLeader = true
        · rw [if_pos hsl]
          by_cases hco : commitOk = true
          · rw [if_pos hco]
            exact le_trans (release_count _ _ _ _) hc1
          · rw [if_neg hco]
            exact le_trans (release_count _ _ _ _) (le_trans (lockCount_filter_le _ _ _) hc)
        · rw [if_neg hsl]
          by_cases hco : commitOk = true
          · rw [if_pos hco]
            exact hc1
          · rw [if_neg hco]
            exact le_trans (release_count _ _ _ _) hc

theorem tryAcquireLease_leaderOwns (c : CoreConfig) (t jit : Int)
    (dbOk commitOk : Bool) (s : EngineState) (store : List LeaseRow)
    (hjit : c.baseRenewalInterval + jit < c.baseLeaseDuration) :
    leaderOwns c (tryAcquireLease c t jit dbOk commitOk s store).engine
      (tryAcquireLease c t jit dbOk commitOk s store).store := by
  intro hflag
  obtain ⟨store1, hup, hst, hrb⟩ :=
    tryAcquireLease_confirmed_elim c t jit dbOk commitOk s store hflag
  unfold readBackMine at hrb
  cases hfind : store1.find? (fun r => r.id == c.lockId) with
  | none =>
    rw [hfind] at hrb
    simp at hrb
  | some row =>
    rw [hfind] at hrb
    have hid : row.id = c.lockId := by
      have := List.find?_some hfind
      simpa using this
    have hme : row.leaderId = c.instanceId := by simpa using hrb
    have hmem : row ∈ store1 := List.mem_of_find?_eq_some hfind
    have hexp : row.expiresAt = t + c.baseLeaseDuration :=
      upsertLease_ok_fresh _ _ _ _ _ _ _ hup hmem hid hme
    refine ⟨rearmTime c t jit, row,
      tryAcquireLease_timer c t jit dbOk commitOk s store, ?_, hid, hme, ?_⟩
    · rw [hst]
      exact hmem
    · rw [hexp]
      unfold rearmTime
      omega

theorem two_le_countP {α : Type} (p : α → Bool) (l : List α) (r1 r2 : α)
    (h1 : r1 ∈ l) (h2 : r2 ∈ l) (hne : r1 ≠ r2)
    (hp1 : p r1 = true) (hp2 : p r2 = true) : 2 ≤ l.countP p := by
  induction l with
  | nil => cases h1
  | cons a l ih =>
    rw [List.countP_cons]
    rcases List.mem_cons.mp h1 with rfl | h1'
    · rcases List.mem_cons.mp h2 with rfl | h2'
      · exact absurd rfl hne
      · have hpos : 0 < l.countP p := List.countP_pos_iff.mpr ⟨r2, h2', hp2⟩
        rw [hp1]
        simp only [if_true]
        omega
    · rcases List.mem_cons.mp h2 with rfl | h2'
      · have hpos : 0 < l.countP p := List.countP_pos_iff.mpr ⟨r1, h1', hp1⟩
        rw [hp2]
        simp only [if_true]
        omega
      · have := ih h1' h2'
        omega

theorem not_both_leaders (cA cB : CoreConfig) (w : World)
    (hid : cA.instanceId ≠ cB.instanceId) (hlock : cA.lockId = cB.lockId)
    (hinv : Inv cA cB w) :
    ¬(w.a.isLeader = true ∧ w.b.isLeader = true) := by
  rintro ⟨ha, hb⟩
  obtain ⟨hc, hOA, hOB⟩ := hinv
  obtain ⟨ta, ra, hta, hra, hida, hla, hea⟩ := hOA ha
  obtain ⟨tb, rb, htb, hrb, hidb, hlb, heb⟩ := hOB hb
  have hne : ra ≠ rb := by
    intro hEq
    exact hid (by rw [← hla, hEq, hlb])
  have h2 : 2 ≤ lockCount cA.lockId w.store :=
    two_le_countP _ _ ra rb hra hrb hne (by simp [hida]) (by simp [hidb, hlock])
  unfold lockCount at hc
  unfold lockCount at h2
  omega

end LeaderElection

namespace LeaderElection

theorem bystander_preserved (c cO : CoreConfig) (t jit : Int)
    (dbOk commitOk : Bool) (s sO : EngineState) (store : List LeaseRow)
    (hid : c.instanceId ≠ cO.instanceId) (hlock : c.lockId = cO.lockId)
    (hc : lockCount c.lockId store ≤ 1)
    (hs : s.isLeader = false)
    (hO : leaderOwns cO sO store) :
    leaderOwns cO sO (tryAcquireLease c t jit dbOk commitOk s store).store := by
  intro hol
  obtain ⟨tO, rO, htO, hrO, hidO, hlO, heO⟩ := hO hol
  have hstore : (tryAcquireLease c t jit dbOk commitOk s store).store = store := by
    apply tryAcquireLease_store_follower _ _ _ _ _ _ _ hs
    cases hdb : dbOk
    · exact Or.inl rfl
    · right
      cases hup : upsertLease c.lockId c.instanceId t c.baseLeaseDuration store with
      | pkConflict => rfl
      | ok store1 =>
        exfalso
        rcases upsertLease_ok_elim _ _ _ _ _ _ hup with hmine | hnone
        · obtain ⟨ra, hra, hma⟩ := List.any_eq_true.mp hmine
          obtain ⟨haid, hame⟩ := (leaseMatch_iff _ _ _).mp hma
          have hne : ra ≠ rO := by
            intro hEq
            exact hid (by rw [← hame, hEq, hlO])
          have h2 : 2 ≤ lockCount c.lockId store :=
            two_le_countP _ _ ra rO hra hrO hne (by simp [haid]) (by simp [hidO, hlock])
          unfold lockCount at hc h2
          omega
        · have htrue : store.any (fun r => r.id == c.lockId) = true :=
            List.any_eq_true.mpr ⟨rO, hrO, by simp [hidO, hlock]⟩
          rw [htrue] at hnone
          cases hnone
  rw [hstore]
  exact ⟨tO, rO, htO, hrO, hidO, hlO, heO⟩

theorem cleanup_preserves_leaderOwns (c : CoreConfig) (s : EngineState)
    (store : List LeaseRow) (t : Int)
    (hle : ∀ u : Int, s.renewalTimer = some u → t ≤ u)
    (h : leaderOwns c s store) :
    leaderOwns c s (cleanupExpiredLeases t store) := by
  intro hl
  obtain ⟨u, r, hu, hr, hid, hme, he⟩ := h hl
  refine ⟨u, r, hu, ?_, hid, hme, he⟩
  unfold cleanupExpiredLeases
  rw [List.mem_filter]
  refine ⟨hr, ?_⟩
  have htu := hle u hu
  simp only [Bool.not_eq_true', decide_eq_false_iff_not]
  omega

theorem release_preserves_other (c cO : CoreConfig) (s sO : EngineState)
    (store : List LeaseRow) (hid : c.instanceId ≠ cO.instanceId)
    (hO : leaderOwns cO sO store) :
    leaderOwns cO sO (release c s store).2 := by
  intro hol
  obtain ⟨tO, rO, htO, hrO, hidO, hlO, heO⟩ := hO hol
  refine ⟨tO, rO, htO, ?_, hidO, hlO, heO⟩
  unfold release
  split
  · rw [List.mem_filter]
    refine ⟨hrO, ?_⟩
    have hfalse : (rO.leaderId == c.instanceId) = false := by
      rw [hlO]
      exact beq_eq_false_iff_ne.mpr (fun hEq => hid hEq.symm)
    simp [leaseMatch, hfalse]
  · exact hrO

end LeaderElection

namespace LeaderElection

theorem step_inv (cA cB : CoreConfig)
    (hid : cA.instanceId ≠ cB.instanceId) (hlock : cA.lockId = cB.lockId)
    (hA : 2 * cA.baseRenewalInterval + cA.jitterRange < 2 * cA.baseLeaseDuration)
    (hB : 2 * cB.baseRenewalInterval + cB.jitterRange < 2 * cB.baseLeaseDuration)
    {w w' : World} (hw : Inv cA cB w) (hs : Step cA cB w w') : Inv cA cB w' := by
  obtain ⟨hc, hOA, hOB⟩ := hw
  cases hs with
  | attemptA t jit dbOk commitOk ht hle hj1 hj2 =>
    refine ⟨?_, ?_, ?_⟩
    · exact tryAcquireLease_count cA t jit dbOk commitOk w.a w.store hc
    · exact tryAcquireLease_leaderOwns cA t jit dbOk commitOk w.a w.store (by omega)
    · by_cases hal : w.a.isLeader = true
      · intro hbl
        exact absurd ⟨hal, hbl⟩ (not_both_leaders cA cB w hid hlock ⟨hc, hOA, hOB⟩)
      · have hal' : w.a.isLeader = false := by
          revert hal
          cases w.a.isLeader <;> simp
        exact bystander_preserved cA cB t jit dbOk commitOk w.a w.b w.store
          hid hlock hc hal' hOB
  | attemptB t jit dbOk commitOk ht hle hj1 hj2 =>
    refine ⟨?_, ?_, ?_⟩
    · have hcB : lockCount cB.lockId w.store ≤ 1 := hlock ▸ hc
      have := tryAcquireLease_count cB t jit dbOk commitOk w.b w.store hcB
      rw [hlock]
      exact this
    · by_cases hbl : w.b.isLeader = true
      · intro hal
        exact absurd ⟨hal, hbl⟩ (not_both_leaders cA cB w hid hlock ⟨hc, hOA, hOB⟩)
      · have hbl' : w.b.isLeader = false := by
          revert hbl
          cases w.b.isLeader <;> simp
        exact bystander_preserved cB cA t jit dbOk commitOk w.b w.a w.store
          (fun hEq => hid hEq.symm) hlock.symm (hlock ▸ hc) hbl' hOA
    · exact tryAcquireLease_leaderOwns cB t jit dbOk commitOk w.b w.store (by omega)
  | cleanup t hca hcb =>
    refine ⟨?_, ?_, ?_⟩
    · exact le_trans (lockCount_filter_le _ _ _) hc
    · exact cleanup_preserves_leaderOwns cA w.a w.store t hca hOA
    · exact cleanup_preserves_leaderOwns cB w.b w.store t hcb hOB
  | releaseA =>
    refine ⟨?_, ?_, ?_⟩
    · exact le_trans (release_count _ _ _ _) hc
    · intro h
      rw [release_isLeader] at h
      cases h
    · exact release_preserves_other cA cB w.a w.b w.store hid hOB
  | releaseB =>
    refine ⟨?_, ?_, ?_⟩
    · exact le_trans (release_count _ _ _ _) hc
    · exact release_preserves_other cB cA w.b w.a w.store (fun hEq => hid hEq.symm) hOA
    · intro h
      rw [release_isLeader] at h
      cases h

theorem inv_reachable (cA cB : CoreConfig)
    (hid : cA.instanceId ≠ cB.instanceId) (hlock : cA.lockId = cB.lockId)
    (hA : 2 * cA.baseRenewalInterval + cA.jitterRange < 2 * cA.baseLeaseDuration)
    (hB : 2 * cB.baseRenewalInterval + cB.jitterRange < 2 * cB.baseLeaseDuration)
    {init w : World}
    (hr : Reachable cA cB init w) (h0 : Inv cA cB init) : Inv cA cB w := by
  induction hr with
  | refl => exact h0
  | tail _ hstep ih => exact step_inv cA cB hid hlock hA hB ih hstep

end LeaderElection

namespace LeaderElection

/-- C1: counter-evidence for the acquisition contract. At time 10000 the
only row for lock 1 is owned by instance "a" and expired at time 0, yet a
fault-free attempt by instance "b" hits the primary-key conflict, leaves
the row untouched and stays Follower instead of acquiring the lease. -/
theorem expired_foreign_row_not_acquired :
    staleRow.expiresAt < 10000
  ∧ (staleRow.leaderId == cfgEx.instanceId) = false
  ∧ (tryAcquireLease cfgEx 10000 0 true true ⟨false, none⟩ [staleRow]).store = [staleRow]
  ∧ (tryAcquireLease cfgEx 10000 0 true true ⟨false, none⟩ [staleRow]).engine.isLeader = false
  ∧ (tryAcquireLease cfgEx 10000 0 true true ⟨false, none⟩ [staleRow]).branch
      = AttemptBranch.rejected := by
  decide

/-- C2: any attempt that does not end in the confirmed branch (upsert
rejected, read-back owned by someone else, rollback or commit failure)
leaves the local isLeader flag false, and the flag is true after a step
only if that step's conditional write was read back and committed. -/
theorem rejected_attempt_leaves_follower (c : CoreConfig) (t jit : Int)
    (dbOk commitOk : Bool) (s : EngineState) (store : List LeaseRow) :
    ((tryAcquireLease c t jit dbOk commitOk s store).branch ≠ AttemptBranch.confirmed →
      (tryAcquireLease c t jit dbOk commitOk s store).engine.isLeader = false)
  ∧ ((tryAcquireLease c t jit dbOk commitOk s store).engine.isLeader = true →
      (tryAcquireLease c t jit dbOk commitOk s store).branch = AttemptBranch.confirmed) := by
  constructor
  · intro hb
    rcases tryAcquireLease_cases c t jit dbOk commitOk s store with
      ⟨store1, _, _, _, _, heq⟩ | ⟨hfl, _⟩
    · rw [heq] at hb
      simp at hb
    · exact hfl
  · exact tryAcquireLease_flag c t jit dbOk commitOk s store

theorem rejected_attempt_leaves_follower_witness :
    (tryAcquireLease cfgEx 10000 0 true true ⟨false, none⟩ [staleRow]).engine.isLeader
      = false :=
  (rejected_attempt_leaves_follower cfgEx 10000 0 true true ⟨false, none⟩ [staleRow]).1
    (by decide)

/-- C4: counter-evidence for "the acquisition attempt is executed once at
engine startup": starting the engine on an empty store performs no attempt
(the store stays empty, the flag stays false, only the renewal timer gets
armed), whereas an actually executed fault-free attempt on the same empty
store inserts this instance's row and sets the flag. -/
theorem init_executes_no_attempt :
    (initEngine cfgEx 0 0 []).2 = []
  ∧ (initEngine cfgEx 0 0 []).1.engine.isLeader = false
  ∧ (initEngine cfgEx 0 0 []).1.engine.renewalTimer = some 10000
  ∧ (tryAcquireLease cfgEx 0 0 true true ⟨false, none⟩ []).engine.isLeader = true
  ∧ (tryAcquireLease cfgEx 0 0 true true ⟨false, none⟩ []).store = [⟨1, "b", 30000, 0⟩] := by
  decide

/-- C4 (amended): startup only schedules the first attempt, arming the
single-shot renewal timer with delay baseRenewalInterval plus jitter; and
every attempt, whatever branch it ends in, rearms the single-shot timer as
its final action, so within one instance attempts stay strictly sequential
and recur indefinitely. -/
theorem attempt_rearms_single_shot (c : CoreConfig) (now jit t : Int)
    (dbOk commitOk : Bool) (s : EngineState) (store : List LeaseRow) :
    (initEngine c now jit store).1.engine.renewalTimer
      = some (now + c.baseRenewalInterval + jit)
  ∧ (initEngine c now jit store).1.engine.isLeader = false
  ∧ (tryAcquireLease c t jit dbOk commitOk s store).engine.renewalTimer
      = some (t + c.baseRenewalInterval + jit) := by
  refine ⟨rfl, rfl, ?_⟩
  exact tryAcquireLease_timer c t jit dbOk commitOk s store

/-- C5: shutdown() is not release() plus cancellation of all background
activity: called on a follower it leaves the pending renewal timer armed,
and in every case the recurring cleanup task keeps running, because the
source never stores or clears the cleanup interval handle. -/
theorem shutdown_keeps_background_running :
    (shutdown cfgEx ⟨⟨false, some 5⟩, true⟩ []).1.engine.renewalTimer = some 5
  ∧ (shutdown cfgEx ⟨⟨false, some 5⟩, true⟩ []).1.cleanupActive = true
  ∧ (shutdown cfgEx ⟨⟨true, some 5⟩, true⟩ [staleRow]).1.cleanupActive = true := by
  decide

/-- C6: release() is idempotent: a second call right after a first one
changes nothing, and a call while the flag is false is a no-op on both the
engine state and the store. -/
theorem release_idempotent (c : CoreConfig) (s : EngineState) (store : List LeaseRow) :
    release c (release c s store).1 (release c s store).2 = release c s store
  ∧ (s.isLeader = false → release c s store = (s, store)) := by
  constructor
  · exact release_not_leader _ _ _ (release_isLeader c s store)
  · intro h
    exact release_not_leader _ _ _ h

theorem release_idempotent_witness :
    release cfgEx ⟨false, some 3⟩ [staleRow] = (⟨false, some 3⟩, [staleRow]) :=
  (release_idempotent cfgEx ⟨false, some 3⟩ [staleRow]).2 rfl

end LeaderElection

namespace LeaderElection

/-- C3: mutual exclusion. In the discrete-event embedding of two live
engine instances driven against one transactionally consistent store (a
single global clock, so the clock-skew bound is zero, and each attempt is
one atomic transaction), from any start with both flags down and at most
one row for the lock identifier, no reachable world has both instances'
amILeader() returning true — provided the two instances have distinct
instance ids, share the lock id, and each one's renewal delay including
the largest jitter draw stays below its lease duration. -/
theorem mutual_exclusion (cA cB : CoreConfig) (init w : World)
    (hid : cA.instanceId ≠ cB.instanceId) (hlock : cA.lockId = cB.lockId)
    (hA : 2 * cA.baseRenewalInterval + cA.jitterRange < 2 * cA.baseLeaseDuration)
    (hB : 2 * cB.baseRenewalInterval + cB.jitterRange < 2 * cB.baseLeaseDuration)
    (ha0 : init.a.isLeader = false) (hb0 : init.b.isLeader = false)
    (hc0 : lockCount cA.lockId init.store ≤ 1)
    (hr : Reachable cA cB init w) :
    ¬(amILeader w.a = true ∧ amILeader w.b = true) := by
  have h0 : Inv cA cB init := by
    refine ⟨hc0, ?_, ?_⟩
    · intro h
      rw [ha0] at h
      cases h
    · intro h
      rw [hb0] at h
      cases h
  exact not_both_leaders cA cB w hid hlock (inv_reachable cA cB hid hlock hA hB hr h0)

theorem mutual_exclusion_witness :
    ¬(amILeader (⟨false, some 0⟩ : EngineState) = true
      ∧ amILeader (⟨false, some 0⟩ : EngineState) = true) :=
  mutual_exclusion cfgEx2 cfgEx ⟨[], ⟨false, some 0⟩, ⟨false, some 0⟩⟩
    ⟨[], ⟨false, some 0⟩, ⟨false, some 0⟩⟩
    (by decide) rfl (by decide) (by decide) rfl rfl (by decide) Reachable.refl

/-- C7: counter-evidence for "release() cancels the pending renewal timer":
calling release() while the flag is false is a complete no-op, so an armed
timer stays armed. -/
theorem release_nonleader_keeps_timer :
    (release cfgEx ⟨false, some 7⟩ []).1.renewalTimer = some 7
  ∧ ((release cfgEx ⟨false, some 7⟩ []).1.renewalTimer == none) = false := by
  decide

/-- C7 (amended): release() deletes only rows matching both the lock id and
this instance's id, keeps every other row, never adds rows, always ends
with the flag false, and cancels the pending renewal timer when called
while leader (when not leader the call is a no-op and the timer stays). -/
theorem release_frame (c : CoreConfig) (s : EngineState) (store : List LeaseRow)
    (r : LeaseRow) :
    (release c s store).1.isLeader = false
  ∧ (s.isLeader = true → (release c s store).1.renewalTimer = none)
  ∧ (r ∈ store → (r.id ≠ c.lockId ∨ r.leaderId ≠ c.instanceId) →
      r ∈ (release c s store).2)
  ∧ (r ∈ store → r ∉ (release c s store).2 →
      r.id = c.lockId ∧ r.leaderId = c.instanceId)
  ∧ (r ∈ (release c s store).2 → r ∈ store) := by
  refine ⟨release_isLeader c s store, ?_, ?_, ?_, ?_⟩
  · intro h
    rw [release_leader c s store h]
  · intro hr hne
    have hlm : leaseMatch c.lockId c.instanceId r = false := by
      rcases hne with h | h
      · unfold leaseMatch
        rw [beq_eq_false_iff_ne.mpr h]
        rfl
      · unfold leaseMatch
        rw [beq_eq_false_iff_ne.mpr h]
        simp
    unfold release
    split
    · rw [List.mem_filter]
      refine ⟨hr, ?_⟩
      rw [hlm]
      rfl
    · exact hr
  · intro hr hnot
    unfold release at hnot
    split at hnot
    · rw [List.mem_filter] at hnot
      push_neg at hnot
      have hlm : leaseMatch c.lockId c.instanceId r = true := by
        have := hnot hr
        revert this
        cases leaseMatch c.lockId c.instanceId r <;> simp
      exact (leaseMatch_iff _ _ _).mp hlm
    · exact absurd hr hnot
  · intro hmem
    unfold release at hmem
    split at hmem
    · exact List.mem_of_mem_filter hmem
    · exact hmem

theorem release_frame_witness :
    staleRow ∈ (release cfgEx ⟨true, some 3⟩ [staleRow]).2
  ∧ (release cfgEx ⟨true, some 3⟩ [staleRow]).1.renewalTimer = none :=
  ⟨(release_frame cfgEx ⟨true, some 3⟩ [staleRow] staleRow).2.2.1 (by decide)
      (Or.inr (by decide)),
    (release_frame cfgEx ⟨true, some 3⟩ [staleRow] staleRow).2.1 rfl⟩

/-- C8: counter-evidence for the claimed 6 × leaseDuration cleanup default:
with no cleanup interval configured and the default 30000 ms lease, the
constructor resolves the base cleanup interval to 60000 ms, not 180000. -/
theorem clean_interval_default_not_six :
    (resolveConfig rawEmpty "tok").baseCleanInterval = 60000
  ∧ (resolveConfig rawEmpty "tok").baseLeaseDuration = 30000
  ∧ ((resolveConfig rawEmpty "tok").baseCleanInterval
      == 6 * (resolveConfig rawEmpty "tok").baseLeaseDuration) = false := by
  decide

/-- C8 (amended): with no cleanup interval configured, the constructor
defaults it to 2 × leaseDuration, and startCleanupJob schedules cleanup
runs at that base plus one jitter draw. -/
theorem clean_interval_default_twice (raw : RawConfig) (tok : String) (jit : Int)
    (h : raw.baseCleanInterval = none) :
    (resolveConfig raw tok).baseCleanInterval
      = 2 * (resolveConfig raw tok).baseLeaseDuration
  ∧ cleanupDelay (resolveConfig raw tok) jit
      = 2 * (resolveConfig raw tok).baseLeaseDuration + jit := by
  unfold resolveConfig cleanupDelay
  rw [h]
  dsimp only [Option.getD]
  constructor
  · ring
  · ring

theorem clean_interval_default_twice_witness :
    (resolveConfig rawEmpty "tok").baseCleanInterval
      = 2 * (resolveConfig rawEmpty "tok").baseLeaseDuration :=
  (clean_interval_default_twice rawEmpty "tok" 0 rfl).1

/-- C9: a cleanup run at store time now deletes a row only if its expiry is
strictly older than now minus the 5000 ms grace period, and keeps every
row whose expiry lies within the grace window. -/
theorem cleanup_respects_grace (now : Int) (store : List LeaseRow) (r : LeaseRow) :
    (r ∈ store → r ∉ cleanupExpiredLeases now store → r.expiresAt < now - 5000)
  ∧ (r ∈ store → now - 5000 ≤ r.expiresAt → r ∈ cleanupExpiredLeases now store) := by
  constructor
  · intro h1 h2
    by_contra hlt
    apply h2
    unfold cleanupExpiredLeases
    rw [List.mem_filter]
    refine ⟨h1, ?_⟩
    simp only [Bool.not_eq_true', decide_eq_false_iff_not]
    omega
  · intro h1 h2
    unfold cleanupExpiredLeases
    rw [List.mem_filter]
    refine ⟨h1, ?_⟩
    simp only [Bool.not_eq_true', decide_eq_false_iff_not]
    omega

theorem cleanup_respects_grace_witness :
    staleRow ∈ cleanupExpiredLeases 5000 [staleRow] :=
  (cleanup_respects_grace 5000 [staleRow] staleRow).2 (by decide) (by decide)

/-- C10: not every DDL statement of createLockTableIfNotExists references
the configured schema: with schema "public" the CREATE TABLE and the
expires_at index target public.leader_lease, but the unique-index statement
targets the hardcoded leader_schema.leader_lease and never mentions
"public" at all, so table initialization fails for a schema that lacks
that fixed relation. -/
theorem ddl_unique_index_fixed_schema :
    occursIn "public.leader_lease".data
        ((createLockTableStatements "public").getD 0 "").data = true
  ∧ occursIn "public.leader_lease".data
        ((createLockTableStatements "public").getD 2 "").data = true
  ∧ occursIn "leader_schema.leader_lease".data
        ((createLockTableStatements "public").getD 1 "").data = true
  ∧ occursIn "public".data
        ((createLockTableStatements "public").getD 1 "").data = false := by
  decide

end LeaderElection
